import Mathlib

/-!
# Verification of the `sparse_autoencoder` activation-store and loss subsystem

Shallow embedding of the repository's autoencoder model
(`sparse_autoencoder/autoencoder/model.py`), the loss modules
(`sparse_autoencoder/loss/abstract_loss.py`,
`sparse_autoencoder/loss/learned_activations_l1.py`) and the activation
stores described by the specification.  Tensors are modelled as row-major
lists of rationals together with an explicit shape; Python `dict`s are
modelled as association lists whose lookup takes the most recent binding
(matching `dict` update/overwrite semantics); Python exceptions are
modelled with `Except`.
-/

namespace SAE

/-- A PyTorch tensor, modelled as a shape together with row-major data.
Floats are modelled as rationals. -/
structure MTensor where
  shape : List Nat
  data : List Rat
deriving DecidableEq, Repr

/-- `torch.zeros(shape)`. -/
def MTensor.zeros (shape : List Nat) : MTensor :=
  ⟨shape, List.replicate shape.prod 0⟩

/-- `torch.abs` (elementwise absolute value). -/
def MTensor.absT (t : MTensor) : MTensor :=
  ⟨t.shape, t.data.map (fun x => |x|)⟩

/-- `tensor.sum(dim=-1)`: sum over the last axis.  Each run of
`lastDim` consecutive row-major entries collapses to its sum. -/
def MTensor.sumLast (t : MTensor) : MTensor :=
  let lastDim := t.shape.getLastD 1
  ⟨t.shape.dropLast, (t.data.toChunks lastDim).map (fun c => c.sum)⟩

/-- Multiplication of a tensor by a scalar (`tensor * coefficient`). -/
def MTensor.mulScalar (t : MTensor) (c : Rat) : MTensor :=
  ⟨t.shape, t.data.map (fun x => x * c)⟩

/-- `tensor.sum(dim=0)`: for each position `j` of the remaining shape, sum
the entries `data[i * cols + j]` over the leading axis `i`. -/
def MTensor.sumDim0 (t : MTensor) : MTensor :=
  match t.shape with
  | [] => ⟨[], t.data⟩
  | b :: rest =>
    let cols := rest.prod
    ⟨rest, (List.range cols).map
      (fun j => ((List.range b).map (fun i => t.data.getD (i * cols + j) 0)).sum)⟩

/-- `tensor.mean(dim=0)`: as `sumDim0` but divided by the leading axis size. -/
def MTensor.meanDim0 (t : MTensor) : MTensor :=
  match t.shape with
  | [] => ⟨[], t.data⟩
  | b :: rest =>
    let cols := rest.prod
    ⟨rest, (List.range cols).map
      (fun j => ((List.range b).map (fun i => t.data.getD (i * cols + j) 0)).sum / (b : Rat))⟩

/-- `tensor.squeeze()`: removes every axis of size one. -/
def MTensor.squeeze (t : MTensor) : MTensor :=
  ⟨t.shape.filter (fun d => d != 1), t.data⟩

/-- `torch.stack(ts)`: a new leading axis of size `ts.length`; all stacked
tensors share one shape at every call site in the embedded code. -/
def MTensor.stackT (ts : List MTensor) : MTensor :=
  ⟨ts.length :: ((ts.head?.map MTensor.shape).getD []), (ts.map MTensor.data).flatten⟩

/-- Result of `tensor.tolist()` as used by the loss modules: a scalar
(0-dim) tensor yields a plain Python float, otherwise a list of floats
(every call site in the embedded code has at most one axis here). -/
inductive PyLoss where
  | float (x : Rat)
  | list1 (xs : List Rat)
deriving DecidableEq, Repr

/-- `tensor.tolist()` (0- or 1-dimensional call sites). -/
def MTensor.tolist (t : MTensor) : PyLoss :=
  match t.shape with
  | [] => .float (t.data.getD 0 0)
  | _ => .list1 t.data

/-- Python runtime errors raised by the embedded code. -/
inductive PyError where
  | typeError
deriving DecidableEq, Repr

/-- Python `len()`: raises `TypeError` on a float. -/
def pyLen : PyLoss → Except PyError Nat
  | .float _ => .error .typeError
  | .list1 xs => .ok xs.length

/-- `LossReductionType` from `loss/abstract_loss.py`. -/
inductive LossReductionType where
  | mean
  | sum
deriving DecidableEq, Repr

/-! ## The sparse autoencoder model (`autoencoder/model.py`)

The four component modules (`TiedBias`, `LinearEncoder`, `UnitNormDecoder`)
live outside the given sources, so `SparseAutoencoderModel` carries them as
abstract functions; `forward` composes them exactly as
`SparseAutoencoder.forward` does. -/

/-- The `SparseAutoencoder` module viewed through its four components. -/
structure SparseAutoencoderModel where
  preEncoderBias : MTensor → MTensor
  encoder : MTensor → MTensor
  decoder : MTensor → MTensor
  postDecoderBias : MTensor → MTensor

/-- `SparseAutoencoder.forward`: pre-encoder bias, encode, decode,
post-decoder bias; returns `(learned_activations, decoded_activations)`. -/
def SparseAutoencoderModel.forward (m : SparseAutoencoderModel) (x : MTensor) :
    MTensor × MTensor :=
  let x1 := m.preEncoderBias x
  let learned_activations := m.encoder x1
  let x2 := m.decoder learned_activations
  let decoded_activations := m.postDecoderBias x2
  (learned_activations, decoded_activations)

/-- `shape_with_optional_dimensions(n_components, n_input_features)`:
optional dimensions that are `None` are omitted from the shape. -/
def shape_with_optional_dimensions (n_components : Option Nat) (n_input_features : Nat) :
    List Nat :=
  match n_components with
  | some c => [c, n_input_features]
  | none => [n_input_features]

/-- The parameter state of a `SparseAutoencoder` relevant to bias
initialisation. -/
structure SAEParams where
  n_input_features : Nat
  n_components : Option Nat
  geometric_median_dataset : MTensor
  tied_bias : MTensor
deriving DecidableEq, Repr

/-- `SparseAutoencoder.initialize_tied_parameters`: the tied bias is set to
the stored geometric median of the dataset. -/
def SAEParams.initTiedParameters (s : SAEParams) : SAEParams :=
  { s with tied_bias := s.geometric_median_dataset }

/-- `SparseAutoencoder.__init__`: stores the geometric median (or zeros of
shape `shape_with_optional_dimensions(n_components, n_input_features)` when
none is supplied), allocates the tied bias (`torch.empty`, contents
irrelevant: modelled as zeros) and calls `initialize_tied_parameters`. -/
def SAEParams.init (n_input_features : Nat)
    (geometric_median_dataset : Option MTensor) (n_components : Option Nat) :
    SAEParams :=
  let tied_bias_shape := shape_with_optional_dimensions n_components n_input_features
  let gmd := match geometric_median_dataset with
    | some g => g
    | none => MTensor.zeros tied_bias_shape
  let s : SAEParams :=
    { n_input_features := n_input_features
      n_components := n_components
      geometric_median_dataset := gmd
      tied_bias := MTensor.zeros tied_bias_shape }
  s.initTiedParameters

/-! ## The L1 loss (`loss/learned_activations_l1.py`) -/

/-- `LearnedActivationsL1Loss._l1_loss`: the absolute loss is the summed
absolute value of the learned activations over the last axis; the penalty
multiplies it by the L1 coefficient.  `source_activations` and
`decoded_activations` are accepted and ignored, exactly as in the source. -/
def l1Loss (l1_coefficient : Rat)
    (source_activations learned_activations decoded_activations : MTensor) :
    MTensor × MTensor :=
  let _ := source_activations
  let _ := decoded_activations
  let absolute_loss := (learned_activations.absT).sumLast
  let absolute_loss_penalty := absolute_loss.mulScalar l1_coefficient
  (absolute_loss, absolute_loss_penalty)

/-- `LearnedActivationsL1Loss.forward`: the itemwise loss is the penalty
component of `_l1_loss`. -/
def l1Forward (l1_coefficient : Rat)
    (source_activations learned_activations decoded_activations : MTensor) : MTensor :=
  (l1Loss l1_coefficient source_activations learned_activations decoded_activations).2

/-- `LearnedActivationsL1Loss.batch_scalar_loss_with_log`: reduces both loss
components over the batch axis, squeezes, converts `tolist`, then branches
on `len(batch_loss_to_log)` — which raises `TypeError` when `tolist`
produced a Python float (a 0-dimensional reduced loss). -/
def l1BatchScalarLossWithLog (l1_coefficient : Rat)
    (source_activations learned_activations decoded_activations : MTensor)
    (reduction : LossReductionType) :
    Except PyError (MTensor × List (String × Rat)) :=
  let p := l1Loss l1_coefficient source_activations learned_activations decoded_activations
  let r := match reduction with
    | .mean => (p.1.meanDim0.squeeze, p.2.meanDim0.squeeze)
    | .sum => (p.1.sumDim0.squeeze, p.2.sumDim0.squeeze)
  let batch_loss_to_log := r.1.tolist
  let batch_loss_penalty_to_log := r.2.tolist
  match batch_loss_to_log, batch_loss_penalty_to_log with
  | .float _, _ => .error .typeError
  | .list1 xs, blp =>
    let ys := match blp with
      | .float y => [y]
      | .list1 ys => ys
    if xs.length = 1 then
      .ok (r.2, [("train/loss/learned_activations_l1_loss", xs.getD 0 0),
                 ("train/loss/learned_activations_l1_loss_penalty", ys.getD 0 0)])
    else
      .ok (r.2, ((xs.zip ys).enum.flatMap (fun q =>
        [("train/loss/learned_activations_l1_loss/component_" ++ toString q.1, q.2.1),
         ("train/loss/learned_activations_l1_loss_penalty/component_" ++ toString q.1,
           q.2.2)])))

/-! ## Generic loss modules (`loss/abstract_loss.py`)

A loss module has a log name, an itemwise `forward` function (abstract in
`AbstractLoss`) and child loss modules (`self._modules`).  Metric dicts are
association lists; a lookup takes the most recently added binding, which is
exactly the value a Python `dict` holds after the same sequence of
insertions/updates. -/

/-- A loss module: log name, itemwise forward function, children. -/
inductive LossModule where
  | mk (logName : String) (forwardFn : MTensor → MTensor → MTensor → MTensor)
      (children : List LossModule)

/-- The module's log name. -/
def LossModule.logName : LossModule → String
  | .mk n _ _ => n

/-- The module's children (`self._modules`). -/
def LossModule.children : LossModule → List LossModule
  | .mk _ _ cs => cs

/-- The module's itemwise forward function. -/
def LossModule.forwardFn : LossModule → (MTensor → MTensor → MTensor → MTensor)
  | .mk _ f _ => f

/-- Python `dict` lookup on an insertion list: the last binding wins. -/
def dget (d : List (String × Rat)) (k : String) : Option Rat :=
  d.reverse.lookup k

/-- The keys of a metric dict. -/
def mkeys (d : List (String × Rat)) : List String :=
  d.map Prod.fst

/-- `AbstractLoss.batch_scalar_loss`: itemwise forward, then `mean(dim=0)`
or `sum(dim=0)` over the batch axis followed by `squeeze()`. -/
def batchScalarLoss (fwd : MTensor → MTensor → MTensor → MTensor)
    (source_activations learned_activations decoded_activations : MTensor)
    (reduction : LossReductionType) : MTensor :=
  let itemwise_loss := fwd source_activations learned_activations decoded_activations
  match reduction with
  | .mean => itemwise_loss.meanDim0.squeeze
  | .sum => itemwise_loss.sumDim0.squeeze

/-- The current module's own metric entries
(`abstract_loss.py` lines 154-161): a float loss logs under
`train/loss/<log_name>`, a component list logs one entry per component. -/
def mkOwnEntries (key : String) (loss : MTensor) : List (String × Rat) :=
  match loss.tolist with
  | .float x => [(key, x)]
  | .list1 xs => xs.enum.map (fun p => (key ++ "/component_" ++ toString p.1, p.2))

mutual

/-- `AbstractLoss.batch_scalar_loss_with_log`: with children, the loss is
`torch.stack(children_losses).sum(0)` and the metrics are the children's
metrics merged in order; without children, the leaf `batch_scalar_loss`.
Either way the module's own entries are then added. -/
def LossModule.bslWithLog (m : LossModule)
    (source_activations learned_activations decoded_activations : MTensor)
    (reduction : LossReductionType) : MTensor × List (String × Rat) :=
  match m with
  | .mk logName fwd cs =>
    let childResults :=
      LossModule.bslList cs source_activations learned_activations decoded_activations
        reduction
    let current_module_loss :=
      if cs.length > 0 then (MTensor.stackT (childResults.map Prod.fst)).sumDim0
      else batchScalarLoss fwd source_activations learned_activations decoded_activations
        reduction
    let metrics :=
      if cs.length > 0 then (childResults.map Prod.snd).flatten else []
    (current_module_loss,
      metrics ++ mkOwnEntries ("train/loss/" ++ logName) current_module_loss)

/-- The recursive calls over the children of a loss module, in order. -/
def LossModule.bslList (cs : List LossModule)
    (source_activations learned_activations decoded_activations : MTensor)
    (reduction : LossReductionType) : List (MTensor × List (String × Rat)) :=
  match cs with
  | [] => []
  | c :: rest =>
    c.bslWithLog source_activations learned_activations decoded_activations reduction ::
      LossModule.bslList rest source_activations learned_activations decoded_activations
        reduction

end

/-- The elementwise sum of a list of equally-shaped tensors. -/
def elementwiseSum (sh : List Nat) (ts : List MTensor) : MTensor :=
  ⟨sh, (List.range sh.prod).map (fun j => (ts.map (fun t => t.data.getD j 0)).sum)⟩

/-! ## Activation stores

The four store classes are referenced from the given sources
(`sparse_autoencoder/__init__.py`, the hook test) but their code is not
among them, so they are modelled from the specification.  An activation
vector is a list of rationals; store errors follow §7 of the spec. -/

/-- An activation vector. -/
abbrev Vec := List Rat

/-- Store error kinds (§7 of the spec). -/
inductive StoreError where
  | storeFull
  | indexOutOfRange
deriving DecidableEq, Repr

/-- Modelled from the spec: `ListActivationStore` (not among the given
sources) — an in-memory, unbounded, ordered sequence of appended vectors. -/
structure ListActivationStore where
  data : List Vec
deriving DecidableEq, Repr

namespace ListActivationStore

/-- Modelled from the spec: a freshly created, empty store. -/
def mkEmpty : ListActivationStore := ⟨[]⟩

/-- Modelled from the spec: `append(vector)` adds one vector at the next
free slot (no fixed capacity). -/
def append (s : ListActivationStore) (v : Vec) : ListActivationStore :=
  ⟨s.data ++ [v]⟩

/-- Appending a sequence of vectors in order (repeated `append`;
`extend` is semantically equivalent to this by §4.1). -/
def appendMany (s : ListActivationStore) (vs : List Vec) : ListActivationStore :=
  vs.foldl append s

/-- Modelled from the spec: `__len__` is the current size. -/
def size (s : ListActivationStore) : Nat := s.data.length

/-- Modelled from the spec: `__getitem__(index)` is a random-access read
that fails with an `IndexError`-kind error when `index >= current_size`. -/
def getItem (s : ListActivationStore) (i : Nat) : Except StoreError Vec :=
  if h : i < s.data.length then .ok (s.data.get ⟨i, h⟩) else .error .indexOutOfRange

/-- Modelled from the spec: `shuffle()` permutes the stored order in place;
its randomness is modelled by the index permutation `p` it draws. -/
def shuffle (s : ListActivationStore) (p : List Nat) : ListActivationStore :=
  ⟨p.map (fun i => s.data.getD i [])⟩

/-- Modelled from the spec: `empty()` resets the current size to zero. -/
def emptyStore (s : ListActivationStore) : ListActivationStore :=
  let _ := s
  ⟨[]⟩

end ListActivationStore

/-- Modelled from the spec: `TensorActivationStore` (not among the given
sources) — a fixed-capacity pre-allocated store; `append` raises
`StoreFull` once the capacity is exhausted. -/
structure TensorActivationStore where
  capacity : Nat
  items : List Vec
deriving DecidableEq, Repr

namespace TensorActivationStore

/-- Modelled from the spec: a freshly created store of fixed capacity. -/
def mkEmpty (capacity : Nat) : TensorActivationStore := ⟨capacity, []⟩

/-- Modelled from the spec: `append` writes at the next free slot and
raises `StoreFull` when the fixed capacity is exhausted. -/
def append (s : TensorActivationStore) (v : Vec) : Except StoreError TensorActivationStore :=
  if s.items.length ≥ s.capacity then .error .storeFull
  else .ok ⟨s.capacity, s.items ++ [v]⟩

/-- Appending a sequence of vectors in order, stopping at the first error. -/
def appendMany (s : TensorActivationStore) (vs : List Vec) :
    Except StoreError TensorActivationStore :=
  match vs with
  | [] => .ok s
  | v :: rest => (s.append v).bind (fun s' => s'.appendMany rest)

/-- Modelled from the spec: `__len__` is the current size. -/
def size (s : TensorActivationStore) : Nat := s.items.length

end TensorActivationStore

/-- Modelled from the spec: `DiskActivationStore` (not among the given
sources) — immutable flushed chunks plus a mutable in-memory write buffer
of capacity `max_cache_size`. -/
structure DiskActivationStore where
  maxCacheSize : Nat
  chunks : List (List Vec)
  cache : List Vec
deriving DecidableEq, Repr

namespace DiskActivationStore

/-- Modelled from the spec: a fresh store over an empty directory. -/
def mkEmpty (maxCacheSize : Nat) : DiskActivationStore := ⟨maxCacheSize, [], []⟩

/-- Modelled from the spec: `append` adds to the in-memory buffer; when the
buffer reaches `max_cache_size` it is flushed to a new chunk file and the
buffer is cleared. -/
def append (s : DiskActivationStore) (v : Vec) : DiskActivationStore :=
  let cache' := s.cache ++ [v]
  if cache'.length ≥ s.maxCacheSize then ⟨s.maxCacheSize, s.chunks ++ [cache'], []⟩
  else ⟨s.maxCacheSize, s.chunks, cache'⟩

/-- Appending a sequence of vectors in order. -/
def appendMany (s : DiskActivationStore) (vs : List Vec) : DiskActivationStore :=
  vs.foldl append s

/-- Modelled from the spec: `__len__` is the sum of all flushed-chunk sizes
plus the current buffer size. -/
def size (s : DiskActivationStore) : Nat :=
  (s.chunks.map List.length).sum + s.cache.length

/-- Modelled from the spec: `__getitem__` resolves an index below the
flushed region to chunk ordinal `index / max_cache_size` at offset
`index % max_cache_size`, resolves a tail index into the in-memory buffer,
and raises an index error beyond the total size. -/
def getItem (s : DiskActivationStore) (i : Nat) : Except StoreError Vec :=
  if i < s.size then
    if i < s.chunks.length * s.maxCacheSize then
      .ok ((s.chunks.getD (i / s.maxCacheSize) []).getD (i % s.maxCacheSize) [])
    else
      .ok (s.cache.getD (i - s.chunks.length * s.maxCacheSize) [])
  else .error .indexOutOfRange

/-- The logical contents of the store: flushed chunks in order, then the
in-memory buffer. -/
def contents (s : DiskActivationStore) : List Vec :=
  s.chunks.flatten ++ s.cache

/-- The store invariant maintained by `append`: the buffer threshold is
`m`, every flushed chunk holds exactly `m` vectors, and the buffer holds
fewer than `m`. -/
def Inv (m : Nat) (s : DiskActivationStore) : Prop :=
  s.maxCacheSize = m ∧ (∀ c ∈ s.chunks, c.length = m) ∧ s.cache.length < m

end DiskActivationStore

end SAE

attribute [local semireducible] Rat.add Rat.mul Rat.sub Rat.inv

namespace SAE

/-! ## Theorems -/

/-- C1: for every input activation tensor `x`, `SparseAutoencoder.forward x`
returns the pair `(learned_activations, decoded_activations)` with
`learned_activations = encoder (pre_encoder_bias x)` and
`decoded_activations = post_decoder_bias (decoder learned_activations)`. -/
theorem forward_is_bias_encode_decode_bias (m : SparseAutoencoderModel) (x : MTensor) :
    m.forward x =
      (m.encoder (m.preEncoderBias x),
        m.postDecoderBias (m.decoder (m.encoder (m.preEncoderBias x)))) := rfl

/-- C2: after construction and after every call to
`initialize_tied_parameters`, the tied bias equals the supplied geometric
median; with no median supplied it equals the all-zero tensor whose shape
is `(n_components, n_input_features)` with the component dimension omitted
when `n_components` is `None`. -/
theorem tied_bias_is_geometric_median (n_in : Nat) (n_comp : Option Nat)
    (gmd : Option MTensor) :
    (∀ g, gmd = some g →
      (SAEParams.init n_in gmd n_comp).tied_bias = g ∧
      (SAEParams.init n_in gmd n_comp).geometric_median_dataset = g) ∧
    (gmd = none →
      (SAEParams.init n_in gmd n_comp).tied_bias =
        MTensor.zeros (shape_with_optional_dimensions n_comp n_in) ∧
      (SAEParams.init n_in gmd n_comp).geometric_median_dataset =
        MTensor.zeros (shape_with_optional_dimensions n_comp n_in)) ∧
    (∀ t : SAEParams, t.initTiedParameters.tied_bias = t.geometric_median_dataset) ∧
    (∀ c, shape_with_optional_dimensions (some c) n_in = [c, n_in]) ∧
    shape_with_optional_dimensions none n_in = [n_in] := by
  refine ⟨?_, ?_, fun t => rfl, fun c => rfl, rfl⟩
  · rintro g rfl
    exact ⟨rfl, rfl⟩
  · rintro rfl
    exact ⟨rfl, rfl⟩

/-- Witness for C2 at a concrete construction. -/
theorem tied_bias_is_geometric_median_witness :
    (some (MTensor.mk [2] [5, 7]) = some (MTensor.mk [2] [5, 7]) →
      (SAEParams.init 2 (some (MTensor.mk [2] [5, 7])) none).tied_bias =
        MTensor.mk [2] [5, 7]) ∧
    (SAEParams.init 3 none (some 4)).tied_bias =
      MTensor.zeros (shape_with_optional_dimensions (some 4) 3) :=
  ⟨fun h => ((tied_bias_is_geometric_median 2 none (some (MTensor.mk [2] [5, 7]))).1
      (MTensor.mk [2] [5, 7]) h).1,
    ((tied_bias_is_geometric_median 3 (some 4) none).2.1 rfl).1⟩

/-- C3 (code bug): at the input of the class's own docstring example
(`l1_coefficient = 0.1`, `learned_activations = [[2, -3], [2, -3]]`, no
component dimension), `LearnedActivationsL1Loss.batch_scalar_loss_with_log`
raises `TypeError` — the mean-reduced squeezed loss is a 0-dimensional
tensor, `tolist()` yields a Python float, and `len()` of a float raises —
instead of returning the documented scalar loss `0.5` with its metrics. -/
theorem l1_loss_with_log_raises_without_component_dim :
    l1BatchScalarLossWithLog (1 / 10) (MTensor.zeros [2, 2])
        (MTensor.mk [2, 2] [2, -3, 2, -3]) (MTensor.zeros [2, 2])
        LossReductionType.mean = .error .typeError := by
  rfl

/-- C9: `LearnedActivationsL1Loss.forward` depends only on
`learned_activations` and the L1 coefficient — two calls with arbitrary
differing source and decoded activations agree — and the itemwise loss is
the sum of absolute values of the learned activations over the last axis
multiplied by the L1 coefficient. -/
theorem l1_forward_depends_only_on_learned (c : Rat)
    (s₁ d₁ s₂ d₂ l : MTensor) :
    l1Forward c s₁ l d₁ = l1Forward c s₂ l d₂ ∧
    l1Forward c s₁ l d₁ = (l.absT.sumLast).mulScalar c :=
  ⟨rfl, rfl⟩

/-- Appending a sequence to a list store appends it to the stored data. -/
theorem ListActivationStore.appendMany_data (s : ListActivationStore) (vs : List Vec) :
    (s.appendMany vs).data = s.data ++ vs := by
  induction vs generalizing s with
  | nil => simp [appendMany]
  | cons v rest ih =>
    simp only [appendMany, List.foldl_cons] at *
    rw [ih]
    simp [append]

/-- C4: appending a sequence of vectors to a fresh store gives
`len(store) = number appended`, and `store[i]` returns exactly the `i`-th
appended vector for every `i < len(store)`. -/
theorem list_store_append_preserves_order (vs : List Vec) :
    (ListActivationStore.mkEmpty.appendMany vs).size = vs.length ∧
    ∀ i (h : i < vs.length),
      (ListActivationStore.mkEmpty.appendMany vs).getItem i = .ok (vs.get ⟨i, h⟩) := by
  have hdata : (ListActivationStore.mkEmpty.appendMany vs).data = vs := by
    rw [ListActivationStore.appendMany_data]
    rfl
  have hs : ListActivationStore.mkEmpty.appendMany vs = ListActivationStore.mk vs :=
    congrArg ListActivationStore.mk hdata
  rw [hs]
  exact ⟨rfl, fun i h => by rw [ListActivationStore.getItem, dif_pos h]⟩

/-- Witness for C4: two appended vectors, read back in order. -/
theorem list_store_append_preserves_order_witness :
    (1 : Nat) < 2 ∧
    (ListActivationStore.mkEmpty.appendMany [[1], [(2 : Rat)]]).getItem 1 =
      .ok [(2 : Rat)] :=
  ⟨by decide, (list_store_append_preserves_order [[1], [(2 : Rat)]]).2 1 (by decide)⟩

/-- Reading every index of a list through `getD` in order reproduces it. -/
theorem map_getD_range {α : Type} (l : List α) (d : α) :
    (List.range l.length).map (fun i => l.getD i d) = l := by
  induction l with
  | nil => rfl
  | cons x xs ih =>
    rw [List.length_cons, List.range_succ_eq_map, List.map_cons, List.map_map]
    refine congrArg₂ _ rfl ?_
    calc (List.range xs.length).map ((fun i => (x :: xs).getD i d) ∘ Nat.succ)
        = (List.range xs.length).map (fun i => xs.getD i d) := by
          refine List.map_congr_left fun a _ => ?_
          simp [Function.comp]
      _ = xs := ih

/-- C5: `shuffle()` with any permutation of the index range is a
permutation of the stored contents — the multiset of stored vectors and
`len(store)` are unchanged. -/
theorem list_store_shuffle_is_permutation (s : ListActivationStore) (p : List Nat)
    (hp : p.Perm (List.range s.data.length)) :
    (s.shuffle p).data.Perm s.data ∧ (s.shuffle p).size = s.size := by
  have hmap : (s.shuffle p).data.Perm
      ((List.range s.data.length).map (fun i => s.data.getD i [])) :=
    hp.map _
  rw [map_getD_range] at hmap
  exact ⟨hmap, hmap.length_eq⟩

/-- Witness for C5: shuffling a two-element store with the swap. -/
theorem list_store_shuffle_is_permutation_witness :
    ([1, 0] : List Nat).Perm (List.range (ListActivationStore.mk [[1], [(2 : Rat)]]).data.length) ∧
    ((ListActivationStore.mk [[1], [(2 : Rat)]]).shuffle [1, 0]).data.Perm
      (ListActivationStore.mk [[1], [(2 : Rat)]]).data :=
  ⟨by decide,
    (list_store_shuffle_is_permutation (ListActivationStore.mk [[1], [(2 : Rat)]]) [1, 0]
      (by decide)).1⟩

/-- C6: after `empty()` the size is zero and reading index `0` raises an
`IndexOutOfRange`-kind error; in general every read at an index at or
beyond the current size fails that way. -/
theorem list_store_empty_then_read_errors (s : ListActivationStore) :
    s.emptyStore.size = 0 ∧
    s.emptyStore.getItem 0 = .error .indexOutOfRange ∧
    ∀ (t : ListActivationStore) (i : Nat), t.size ≤ i →
      t.getItem i = .error .indexOutOfRange := by
  refine ⟨rfl, rfl, fun t i h => ?_⟩
  rw [ListActivationStore.getItem, dif_neg (by exact Nat.not_lt.mpr h)]

/-- Witness for C6 at a concrete store and out-of-range index. -/
theorem list_store_empty_then_read_errors_witness :
    (ListActivationStore.mk [[(3 : Rat)]]).size ≤ 1 ∧
    (ListActivationStore.mk [[(3 : Rat)]]).getItem 1 = .error .indexOutOfRange :=
  ⟨by decide,
    (list_store_empty_then_read_errors (ListActivationStore.mk [[(3 : Rat)]])).2.2
      (ListActivationStore.mk [[(3 : Rat)]]) 1 (by decide)⟩

/-- Appending a sequence that fits within the remaining capacity of a
tensor store succeeds and appends it to the stored items. -/
theorem TensorActivationStore.appendMany_ok (s : TensorActivationStore) (vs : List Vec)
    (h : s.items.length + vs.length ≤ s.capacity) :
    s.appendMany vs = .ok ⟨s.capacity, s.items ++ vs⟩ := by
  induction vs generalizing s with
  | nil => simp [appendMany]
  | cons v rest ih =>
    have hlt : ¬ s.items.length ≥ s.capacity := by
      simp only [List.length_cons] at h
      omega
    rw [appendMany, append, if_neg hlt]
    rw [Except.bind]
    have := ih ⟨s.capacity, s.items ++ [v]⟩ (by simp at h ⊢; omega)
    simp only at this
    rw [this]
    simp

/-- C7: a tensor store of capacity `c` accepts exactly `c` appends, ending
with `len(store) = c`, and every append beyond that raises `StoreFull`. -/
theorem tensor_store_full_capacity (c : Nat) (vs : List Vec) (hlen : vs.length = c)
    (v : Vec) :
    (TensorActivationStore.mkEmpty c).appendMany vs =
      .ok ⟨c, vs⟩ ∧
    (TensorActivationStore.mk c vs).size = c ∧
    (TensorActivationStore.mk c vs).append v = .error .storeFull := by
  refine ⟨?_, hlen, ?_⟩
  · have := TensorActivationStore.appendMany_ok (TensorActivationStore.mkEmpty c) vs
      (by simp [TensorActivationStore.mkEmpty, hlen])
    simpa [TensorActivationStore.mkEmpty] using this
  · rw [TensorActivationStore.append, if_pos (by simp [hlen])]

/-- Witness for C7 with capacity two. -/
theorem tensor_store_full_capacity_witness :
    ([[1], [(2 : Rat)]] : List Vec).length = 2 ∧
    (TensorActivationStore.mkEmpty 2).appendMany [[1], [(2 : Rat)]] =
      .ok ⟨2, [[1], [(2 : Rat)]]⟩ ∧
    (TensorActivationStore.mk 2 [[1], [(2 : Rat)]]).append [3] = .error .storeFull :=
  ⟨by decide,
    (tensor_store_full_capacity 2 [[1], [(2 : Rat)]] (by decide) [3]).1,
    (tensor_store_full_capacity 2 [[1], [(2 : Rat)]] (by decide) [3]).2.2⟩

/-- Lists of a common length `m` have flattened length `m` per list. -/
theorem sum_map_length_eq {α : Type} (L : List (List α)) (m : Nat)
    (h : ∀ c ∈ L, c.length = m) : (L.map List.length).sum = m * L.length := by
  induction L with
  | nil => simp
  | cons x xs ih =>
    simp only [List.map_cons, List.sum_cons, List.length_cons]
    rw [h x (by simp), ih (fun c hc => h c (by simp [hc]))]
    ring

/-- Indexing the flattening of equal-length lists: position `i * m + j`
with `j < m` lands in list `i` at offset `j`. -/
theorem flatten_getD_uniform {α : Type} (d : α) (L : List (List α)) (m : Nat)
    (hm : ∀ x ∈ L, x.length = m) (i j : Nat) (hj : j < m) :
    L.flatten.getD (i * m + j) d = (L.getD i []).getD j d := by
  induction L generalizing i with
  | nil => simp
  | cons x xs ih =>
    have hx : x.length = m := hm x (by simp)
    rw [List.flatten_cons]
    cases i with
    | zero =>
      rw [Nat.zero_mul, Nat.zero_add,
        List.getD_append _ _ _ _ (by rw [hx]; exact hj), List.getD_cons_zero]
    | succ k =>
      have hsm : (k + 1) * m = k * m + m := Nat.succ_mul k m
      rw [List.getD_append_right _ _ _ _ (by rw [hx, hsm]; omega),
        (by rw [hx, hsm]; omega : (k + 1) * m + j - x.length = k * m + j),
        ih (fun c hc => hm c (by simp [hc])) k, List.getD_cons_succ]

/-- `DiskActivationStore.append` preserves the store invariant and appends
the vector to the logical contents. -/
theorem DiskActivationStore.append_inv (m : Nat) (hm : 0 < m) (s : DiskActivationStore)
    (hinv : Inv m s) (v : Vec) :
    Inv m (s.append v) ∧ (s.append v).contents = s.contents ++ [v] := by
  obtain ⟨hmcs, hchunks, hcache⟩ := hinv
  rw [DiskActivationStore.append]
  by_cases hfull : (s.cache ++ [v]).length ≥ s.maxCacheSize
  · rw [if_pos hfull]
    have hlen : (s.cache ++ [v]).length = m := by
      simp only [List.length_append, List.length_singleton] at hfull ⊢
      omega
    refine ⟨⟨hmcs, ?_, hm⟩, ?_⟩
    · intro c hc
      rcases List.mem_append.mp hc with h | h
      · exact hchunks c h
      · rw [List.mem_singleton.mp h, hlen]
    · simp [contents, List.flatten_append]
  · rw [if_neg hfull]
    refine ⟨⟨hmcs, hchunks, ?_⟩, ?_⟩
    · simp only [List.length_append, List.length_singleton]
      simp only [List.length_append, List.length_singleton, hmcs, Nat.not_le] at hfull
      omega
    · simp [contents]

/-- `DiskActivationStore.appendMany` preserves the invariant and appends
the whole sequence to the logical contents. -/
theorem DiskActivationStore.appendMany_inv (m : Nat) (hm : 0 < m)
    (s : DiskActivationStore) (hinv : Inv m s) (vs : List Vec) :
    Inv m (s.appendMany vs) ∧ (s.appendMany vs).contents = s.contents ++ vs := by
  induction vs generalizing s with
  | nil => simpa [appendMany] using hinv
  | cons v rest ih =>
    obtain ⟨hinv', hcont'⟩ := DiskActivationStore.append_inv m hm s hinv v
    obtain ⟨hinv'', hcont''⟩ := ih (s.append v) hinv'
    refine ⟨hinv'', ?_⟩
    rw [appendMany, List.foldl_cons]
    have hfold : (s.append v).appendMany rest = List.foldl append (s.append v) rest := rfl
    rw [← hfold, hcont'', hcont']
    simp

/-- C8: appending `2.5 * max_cache_size` vectors yields exactly two full
flushed chunks of `max_cache_size` vectors each plus an in-memory buffer of
`0.5 * max_cache_size` vectors, and every index `i` below the flushed total
is resolved to chunk ordinal `i / max_cache_size` at offset
`i % max_cache_size`, returning exactly the `i`-th appended vector. -/
theorem disk_store_chunking (m : Nat) (hm : 0 < m) (heven : m % 2 = 0)
    (vs : List Vec) (hlen : vs.length = 2 * m + m / 2) :
    ((DiskActivationStore.mkEmpty m).appendMany vs).chunks.length = 2 ∧
    (∀ c ∈ ((DiskActivationStore.mkEmpty m).appendMany vs).chunks, c.length = m) ∧
    ((DiskActivationStore.mkEmpty m).appendMany vs).cache.length = m / 2 ∧
    ((DiskActivationStore.mkEmpty m).appendMany vs).cache.length ≠ 0 ∧
    (∀ i, i < 2 * m →
      ((DiskActivationStore.mkEmpty m).appendMany vs).getItem i =
        .ok ((((DiskActivationStore.mkEmpty m).appendMany vs).chunks.getD (i / m) []).getD
          (i % m) [])) ∧
    (∀ i (h : i < vs.length),
      ((DiskActivationStore.mkEmpty m).appendMany vs).getItem i = .ok (vs.get ⟨i, h⟩)) := by
  obtain ⟨⟨hmcs, hchunks, hcache⟩, hcont⟩ :=
    DiskActivationStore.appendMany_inv m hm (DiskActivationStore.mkEmpty m)
      ⟨rfl, by simp [DiskActivationStore.mkEmpty], hm⟩ vs
  set s := (DiskActivationStore.mkEmpty m).appendMany vs with hs
  rw [(by simp [DiskActivationStore.mkEmpty, DiskActivationStore.contents] :
    (DiskActivationStore.mkEmpty m).contents ++ vs = vs)] at hcont
  have hflatlen : s.chunks.flatten.length = m * s.chunks.length := by
    rw [List.length_flatten, sum_map_length_eq s.chunks m hchunks]
  have htot : m * s.chunks.length + s.cache.length = 2 * m + m / 2 := by
    have := congrArg List.length hcont
    simp only [DiskActivationStore.contents, List.length_append] at this
    rw [hflatlen] at this
    omega
  have hhalf : m / 2 < m := Nat.div_lt_self hm one_lt_two
  have hn : s.chunks.length = 2 := by
    have h1 : (m * s.chunks.length + s.cache.length) / m = s.chunks.length := by
      rw [Nat.mul_add_div hm, Nat.div_eq_of_lt hcache, Nat.add_zero]
    have h2 : (m * 2 + m / 2) / m = 2 := by
      rw [Nat.mul_add_div hm, Nat.div_eq_of_lt hhalf, Nat.add_zero]
    rw [(by omega : 2 * m + m / 2 = m * 2 + m / 2)] at htot
    rw [← h1, htot, h2]
  have hr : s.cache.length = m / 2 := by
    rw [hn] at htot
    omega
  have hsize : s.size = 2 * m + m / 2 := by
    rw [DiskActivationStore.size, sum_map_length_eq s.chunks m hchunks]
    exact htot
  have hget : ∀ i (h : i < vs.length), s.getItem i = .ok (vs.get ⟨i, h⟩) := by
    intro i h
    have hisize : i < s.size := by rw [hsize, ← hlen]; exact h
    have hcontD : (s.chunks.flatten ++ s.cache).getD i [] = vs.getD i [] := by
      have h3 : s.contents.getD i [] = vs.getD i [] := by rw [hcont]
      exact h3
    rw [DiskActivationStore.getItem, if_pos hisize]
    by_cases hcase : i < s.chunks.length * s.maxCacheSize
    · rw [if_pos hcase, hmcs]
      have hcase' : i < m * s.chunks.length := by
        rw [hmcs, Nat.mul_comm] at hcase
        exact hcase
      congr 1
      have h1 : (s.chunks.getD (i / m) []).getD (i % m) [] =
          s.chunks.flatten.getD (i / m * m + i % m) [] :=
        (flatten_getD_uniform [] s.chunks m hchunks (i / m) (i % m) (Nat.mod_lt i hm)).symm
      rw [h1, Nat.div_add_mod' i m]
      have h2 : (s.chunks.flatten ++ s.cache).getD i [] = s.chunks.flatten.getD i [] :=
        List.getD_append _ _ _ _ (by rw [hflatlen]; exact hcase')
      rw [← h2, hcontD]
      exact (List.getD_eq_getElem vs [] h).trans (List.get_eq_getElem vs ⟨i, h⟩).symm
    · rw [if_neg hcase, hmcs]
      have hge : m * s.chunks.length ≤ i := by
        rw [hmcs, Nat.mul_comm] at hcase
        omega
      congr 1
      have h2 : (s.chunks.flatten ++ s.cache).getD i [] =
          s.cache.getD (i - s.chunks.flatten.length) [] :=
        List.getD_append_right _ _ _ _ (by rw [hflatlen]; exact hge)
      rw [hflatlen, Nat.mul_comm] at h2
      rw [← h2, hcontD]
      exact (List.getD_eq_getElem vs [] h).trans (List.get_eq_getElem vs ⟨i, h⟩).symm
  refine ⟨hn, hchunks, hr, by omega, ?_, hget⟩
  intro i hi
  rw [DiskActivationStore.getItem,
    if_pos (by rw [hsize]; omega),
    if_pos (by rw [hn, hmcs]; omega), hmcs]

/-- Witness for C8 with `max_cache_size = 2` and five appended vectors. -/
theorem disk_store_chunking_witness :
    (0 : Nat) < 2 ∧ 2 % 2 = 0 ∧
    ([[1], [2], [3], [4], [(5 : Rat)]] : List Vec).length = 2 * 2 + 2 / 2 ∧
    ((DiskActivationStore.mkEmpty 2).appendMany
        [[1], [2], [3], [4], [(5 : Rat)]]).getItem 3 = .ok [(4 : Rat)] :=
  ⟨by decide, by decide, by decide,
    (disk_store_chunking 2 (by decide) (by decide)
      [[1], [2], [3], [4], [(5 : Rat)]] (by decide)).2.2.2.2.2 3 (by decide)⟩

/-- The recursive children results are the children's results in order. -/
theorem bslList_eq_map (cs : List LossModule) (src lrn dec : MTensor)
    (red : LossReductionType) :
    LossModule.bslList cs src lrn dec red =
      cs.map (fun c => c.bslWithLog src lrn dec red) := by
  induction cs with
  | nil => rfl
  | cons c rest ih =>
    show c.bslWithLog src lrn dec red :: LossModule.bslList rest src lrn dec red = _
    rw [ih, List.map_cons]

/-- Dict lookup over concatenated insertions: the later block wins. -/
theorem dget_append (a b : List (String × Rat)) (k : String) :
    dget (a ++ b) k = (dget b k).or (dget a k) := by
  rw [dget, dget, dget, List.reverse_append, List.lookup_append]

/-- A key absent from a dict's keys looks up to `none`. -/
theorem dget_eq_none_of_not_mem (d : List (String × Rat)) (k : String)
    (h : k ∉ mkeys d) : dget d k = none := by
  rw [dget]
  have h' : k ∉ mkeys d.reverse := by
    simp only [mkeys, List.map_reverse, List.mem_reverse]
    simpa [mkeys] using h
  generalize d.reverse = e at h'
  induction e with
  | nil => rfl
  | cons p t ih =>
    obtain ⟨k', v⟩ := p
    simp only [mkeys, List.map_cons, List.mem_cons, not_or] at h'
    obtain ⟨h1, h2⟩ := h'
    simp only [List.lookup]
    rw [show (k == k') = false from by simpa using h1]
    exact ih (by simpa [mkeys] using h2)

/-- A successful dict lookup means the key is among the keys. -/
theorem mem_keys_of_dget_some (d : List (String × Rat)) (k : String) (v : Rat)
    (h : dget d k = some v) : k ∈ mkeys d := by
  by_contra hk
  rw [dget_eq_none_of_not_mem d k hk] at h
  exact Option.noConfusion h

/-- Lookup in a singleton dict at its own key. -/
theorem dget_singleton_self (key : String) (v : Rat) : dget [(key, v)] key = some v := by
  simp [dget, List.lookup]

/-- Lookup in a singleton dict at a different key. -/
theorem dget_singleton_ne (k key : String) (v : Rat) (h : k ≠ key) :
    dget [(key, v)] k = none := by
  simp only [dget, List.reverse_singleton, List.lookup]
  rw [show (k == key) = false from by simpa using h]

/-- A key among a dict's keys looks up to some value. -/
theorem dget_of_mem_keys (d : List (String × Rat)) (k : String)
    (h : k ∈ mkeys d) : ∃ v, dget d k = some v := by
  rw [dget]
  have h' : k ∈ mkeys d.reverse := by
    simp only [mkeys, List.map_reverse, List.mem_reverse]
    simpa [mkeys] using h
  generalize d.reverse = e at h'
  induction e with
  | nil => simp [mkeys] at h'
  | cons p t ih =>
    obtain ⟨k', v⟩ := p
    simp only [List.lookup]
    by_cases hk : k = k'
    · rw [show (k == k') = true from by simpa using hk]
      exact ⟨v, rfl⟩
    · rw [show (k == k') = false from by simpa using hk]
      apply ih
      simp only [mkeys, List.map_cons, List.mem_cons] at h'
      rcases h' with h1 | h2
      · exact absurd h1 hk
      · simpa [mkeys] using h2

/-- A key absent from every block looks up to `none` in the flattening. -/
theorem dget_flatten_none (L : List (List (String × Rat))) (k : String)
    (h : ∀ d ∈ L, k ∉ mkeys d) : dget L.flatten k = none := by
  induction L with
  | nil => rfl
  | cons x xs ih =>
    rw [List.flatten_cons, dget_append, ih (fun d hd => h d (by simp [hd])),
      dget_eq_none_of_not_mem x k (h x (by simp))]
    rfl

/-- When the blocks of a flattened dict have pairwise disjoint keys, a
binding of any one block survives into the flattening. -/
theorem dget_flatten_of_mem (L : List (List (String × Rat)))
    (x : List (String × Rat)) (k : String) (v : Rat) (hx : x ∈ L)
    (hk : dget x k = some v)
    (hdisj : L.Pairwise (fun a b => ∀ key, key ∈ mkeys a → key ∉ mkeys b)) :
    dget L.flatten k = some v := by
  induction L with
  | nil => cases hx
  | cons y ys ih =>
    rw [List.flatten_cons, dget_append]
    rw [List.pairwise_cons] at hdisj
    obtain ⟨hy, hys⟩ := hdisj
    rcases List.mem_cons.mp hx with rfl | hx'
    · have hkin : k ∈ mkeys x := mem_keys_of_dget_some x k v hk
      rw [dget_flatten_none ys k (fun d hd => hy d hd k hkin), hk]
      rfl
    · have hkx : k ∈ mkeys x := mem_keys_of_dget_some x k v hk
      have hky : k ∉ mkeys y := fun hmem => hy x hx' k hmem hkx
      rw [ih hx' hys, dget_eq_none_of_not_mem y k hky]
      rfl

/-- Reading positions of a list through `getD` and then mapping equals
mapping directly. -/
theorem range_map_getD_map {α β : Type} (L : List α) (dflt : α) (g : α → β) :
    (List.range L.length).map (fun i => g (L.getD i dflt)) = L.map g := by
  have : (List.range L.length).map (fun i => g (L.getD i dflt)) =
      ((List.range L.length).map (fun i => L.getD i dflt)).map g := by
    rw [List.map_map]
    rfl
  rw [this, map_getD_range]

/-- `torch.stack(ts).sum(0)` of equally-shaped tensors is their elementwise
sum. -/
theorem stack_sum_eq (sh : List Nat) (ts : List MTensor) (hne : ts ≠ [])
    (hsh : ∀ t ∈ ts, t.shape = sh) (hd : ∀ t ∈ ts, t.data.length = sh.prod) :
    (MTensor.stackT ts).sumDim0 = elementwiseSum sh ts := by
  obtain ⟨t0, rest, rfl⟩ := List.exists_cons_of_ne_nil hne
  have hshape0 : ((t0 :: rest).head?.map MTensor.shape).getD [] = sh := by
    simp [hsh t0 (by simp)]
  rw [MTensor.stackT, hshape0]
  show MTensor.sumDim0 ⟨(t0 :: rest).length :: sh, ((t0 :: rest).map MTensor.data).flatten⟩ = _
  rw [MTensor.sumDim0, elementwiseSum]
  refine congrArg (MTensor.mk sh) (List.map_congr_left fun j hj => ?_)
  have hj' : j < sh.prod := List.mem_range.mp hj
  have hmlen : ∀ x ∈ (t0 :: rest).map MTensor.data, x.length = sh.prod := by
    intro x hx
    obtain ⟨t, ht, rfl⟩ := List.mem_map.mp hx
    exact hd t ht
  have hinner : (List.range (t0 :: rest).length).map
      (fun i => (((t0 :: rest).map MTensor.data).flatten).getD (i * sh.prod + j) 0) =
      (t0 :: rest).map (fun t => t.data.getD j 0) := by
    have hlen : (t0 :: rest).length = ((t0 :: rest).map MTensor.data).length := by
      rw [List.length_map]
    rw [List.map_congr_left (fun i _ =>
      flatten_getD_uniform 0 ((t0 :: rest).map MTensor.data) sh.prod hmlen i j hj')]
    rw [hlen, range_map_getD_map (((t0 :: rest).map MTensor.data)) [] (fun l => l.getD j 0),
      List.map_map]
    rfl
  rw [hinner]

/-- C10 counterexample: in a composite loss whose two children share the
log name `a`, the first child's metric binding `train/loss/a ↦ 2` is
overwritten by the second child's (`↦ 3`), so the parent's metrics dict
does not contain every key-value pair of every child's metrics. -/
theorem composite_loss_metrics_key_collision :
    (LossModule.mk "a" (fun _ l _ => l) []) ∈
      (LossModule.mk "p" (fun _ l _ => l)
        [LossModule.mk "a" (fun _ l _ => l) [],
         LossModule.mk "a" (fun _ _ _ => MTensor.mk [1] [3]) []]).children ∧
    dget ((LossModule.mk "a" (fun _ l _ => l) []).bslWithLog
      (MTensor.mk [1] [2]) (MTensor.mk [1] [2]) (MTensor.mk [1] [2])
      LossReductionType.sum).2 "train/loss/a" = some 2 ∧
    dget ((LossModule.mk "p" (fun _ l _ => l)
        [LossModule.mk "a" (fun _ l _ => l) [],
         LossModule.mk "a" (fun _ _ _ => MTensor.mk [1] [3]) []]).bslWithLog
      (MTensor.mk [1] [2]) (MTensor.mk [1] [2]) (MTensor.mk [1] [2])
      LossReductionType.sum).2 "train/loss/a" ≠ some 2 :=
  ⟨List.mem_cons_self _ _, by decide, by decide⟩

/-- C10 (amended): for a loss module with children, the loss is
`torch.stack` of the children's losses summed over the stacking axis —
their elementwise sum — whatever the common shape of the reduced losses;
and when the children's metric key sets are pairwise disjoint and disjoint
from the module's own metric keys, the metrics dict contains every
key-value pair of every child's metrics together with the module's own
entries (the per-component `train/loss/<log_name>/component_i` entries
when the reduced loss has a component dimension, and — stated explicitly
for a scalar reduced loss — the exact `train/loss/<log_name>` entry
holding the reduced loss). -/
theorem composite_loss_sums_children (ln : String)
    (fwd : MTensor → MTensor → MTensor → MTensor) (cs : List LossModule)
    (src lrn dec : MTensor) (red : LossReductionType) (sh : List Nat)
    (hne : cs ≠ [])
    (hshape : ∀ c ∈ cs, ((c.bslWithLog src lrn dec red).1).shape = sh ∧
      ((c.bslWithLog src lrn dec red).1).data.length = sh.prod)
    (hdisj : (cs.map (fun c => (c.bslWithLog src lrn dec red).2)).Pairwise
      (fun a b => ∀ key, key ∈ mkeys a → key ∉ mkeys b))
    (hown : ∀ c ∈ cs, ∀ key,
      key ∈ mkeys (mkOwnEntries ("train/loss/" ++ ln)
        ((LossModule.mk ln fwd cs).bslWithLog src lrn dec red).1) →
      key ∉ mkeys (c.bslWithLog src lrn dec red).2) :
    ((LossModule.mk ln fwd cs).bslWithLog src lrn dec red).1 =
      elementwiseSum sh (cs.map (fun c => (c.bslWithLog src lrn dec red).1)) ∧
    (∀ c ∈ cs, ∀ k v, dget (c.bslWithLog src lrn dec red).2 k = some v →
      dget ((LossModule.mk ln fwd cs).bslWithLog src lrn dec red).2 k = some v) ∧
    (∀ key, key ∈ mkeys (mkOwnEntries ("train/loss/" ++ ln)
        ((LossModule.mk ln fwd cs).bslWithLog src lrn dec red).1) →
      dget ((LossModule.mk ln fwd cs).bslWithLog src lrn dec red).2 key =
        dget (mkOwnEntries ("train/loss/" ++ ln)
          ((LossModule.mk ln fwd cs).bslWithLog src lrn dec red).1) key) ∧
    (sh = [] →
      dget ((LossModule.mk ln fwd cs).bslWithLog src lrn dec red).2
          ("train/loss/" ++ ln) =
        some (((LossModule.mk ln fwd cs).bslWithLog src lrn dec red).1.data.getD 0 0)) := by
  obtain ⟨c0, rest, rfl⟩ := List.exists_cons_of_ne_nil hne
  have h0 : (c0 :: rest).length > 0 := by simp
  have hpair : (LossModule.mk ln fwd (c0 :: rest)).bslWithLog src lrn dec red =
      ((MTensor.stackT ((LossModule.bslList (c0 :: rest) src lrn dec red).map
          Prod.fst)).sumDim0,
        ((LossModule.bslList (c0 :: rest) src lrn dec red).map Prod.snd).flatten ++
          mkOwnEntries ("train/loss/" ++ ln)
            ((MTensor.stackT ((LossModule.bslList (c0 :: rest) src lrn dec red).map
              Prod.fst)).sumDim0)) := by
    rw [LossModule.bslWithLog, if_pos h0, if_pos h0]
  have hlosses : (LossModule.bslList (c0 :: rest) src lrn dec red).map Prod.fst =
      (c0 :: rest).map (fun c => (c.bslWithLog src lrn dec red).1) := by
    rw [bslList_eq_map, List.map_map]
    rfl
  have hmetrics : (LossModule.bslList (c0 :: rest) src lrn dec red).map Prod.snd =
      (c0 :: rest).map (fun c => (c.bslWithLog src lrn dec red).2) := by
    rw [bslList_eq_map, List.map_map]
    rfl
  have hloss : ((LossModule.mk ln fwd (c0 :: rest)).bslWithLog src lrn dec red).1 =
      elementwiseSum sh ((c0 :: rest).map (fun c => (c.bslWithLog src lrn dec red).1)) := by
    rw [hpair, hlosses]
    refine stack_sum_eq sh _ (by simp) ?_ ?_
    · intro t ht
      obtain ⟨c, hc, rfl⟩ := List.mem_map.mp ht
      exact (hshape c hc).1
    · intro t ht
      obtain ⟨c, hc, rfl⟩ := List.mem_map.mp ht
      exact (hshape c hc).2
  refine ⟨hloss, ?_, ?_, ?_⟩
  · intro c hc k v hkv
    have hkin : k ∈ mkeys (c.bslWithLog src lrn dec red).2 :=
      mem_keys_of_dget_some _ k v hkv
    have hknotown : k ∉ mkeys (mkOwnEntries ("train/loss/" ++ ln)
        ((LossModule.mk ln fwd (c0 :: rest)).bslWithLog src lrn dec red).1) :=
      fun hk => hown c hc k hk hkin
    rw [hpair] at hknotown ⊢
    dsimp only at hknotown ⊢
    rw [dget_append, dget_eq_none_of_not_mem _ k hknotown, hmetrics,
      dget_flatten_of_mem ((c0 :: rest).map (fun c => (c.bslWithLog src lrn dec red).2))
        ((c.bslWithLog src lrn dec red).2) k v
        (List.mem_map_of_mem (fun c => (c.bslWithLog src lrn dec red).2) hc) hkv hdisj]
    rfl
  · intro key hkey
    rw [hpair] at hkey ⊢
    dsimp only at hkey ⊢
    obtain ⟨w, hw⟩ := dget_of_mem_keys _ key hkey
    rw [dget_append, hw]
    rfl
  · intro hsh
    subst hsh
    have hsh0 : ((MTensor.stackT ((LossModule.bslList (c0 :: rest) src lrn dec red).map
        Prod.fst)).sumDim0).shape = [] := by
      have h' := congrArg MTensor.shape hloss
      rw [hpair] at h'
      exact h'
    have hownE : mkOwnEntries ("train/loss/" ++ ln)
        ((MTensor.stackT ((LossModule.bslList (c0 :: rest) src lrn dec red).map
          Prod.fst)).sumDim0) =
        [("train/loss/" ++ ln,
          ((MTensor.stackT ((LossModule.bslList (c0 :: rest) src lrn dec red).map
            Prod.fst)).sumDim0).data.getD 0 0)] := by
      rw [mkOwnEntries]
      have htl : ((MTensor.stackT ((LossModule.bslList (c0 :: rest) src lrn dec red).map
          Prod.fst)).sumDim0).tolist =
          .float (((MTensor.stackT ((LossModule.bslList (c0 :: rest) src lrn dec
            red).map Prod.fst)).sumDim0).data.getD 0 0) := by
        rw [MTensor.tolist, hsh0]
      rw [htl]
    rw [hpair]
    dsimp only
    rw [dget_append, hownE, dget_singleton_self]
    rfl

/-- Witness for C10 (amended) with two children of distinct log names. -/
theorem composite_loss_sums_children_witness :
    ([LossModule.mk "a" (fun _ l _ => l) [],
      LossModule.mk "b" (fun _ _ _ => MTensor.mk [1] [3]) []] : List LossModule) ≠ [] ∧
    dget ((LossModule.mk "p" (fun _ l _ => l)
        [LossModule.mk "a" (fun _ l _ => l) [],
         LossModule.mk "b" (fun _ _ _ => MTensor.mk [1] [3]) []]).bslWithLog
      (MTensor.mk [1] [2]) (MTensor.mk [1] [2]) (MTensor.mk [1] [2])
      LossReductionType.sum).2 "train/loss/a" = some 2 :=
  ⟨List.cons_ne_nil _ _,
    (composite_loss_sums_children "p" (fun _ l _ => l)
      [LossModule.mk "a" (fun _ l _ => l) [],
       LossModule.mk "b" (fun _ _ _ => MTensor.mk [1] [3]) []]
      (MTensor.mk [1] [2]) (MTensor.mk [1] [2]) (MTensor.mk [1] [2])
      LossReductionType.sum [] (List.cons_ne_nil _ _) (by decide) (by decide)
      (by decide)).2.1
      (LossModule.mk "a" (fun _ l _ => l) []) (List.mem_cons_self _ _)
      "train/loss/a" 2 (by decide)⟩

end SAE
